import Mathlib

/-!
Verification of the blob query model of the snakemake Azure storage plugin.

Python strings are shallowly embedded as lists of characters (`Str`); the
relevant parts of CPython's `urllib.parse.urlparse` and the plugin's parsing,
validation and state-changing operations are translated into executable Lean
definitions, and the spec's claims are settled as theorems about them.
-/

namespace AzurePlugin

/-- Python strings are modelled as lists of characters. -/
abbrev Str := List Char

/-- One step of Python string splitting: the part of `l` before the first
occurrence of `c`, and — when `c` occurs — the part after it. -/
def breakAt (c : Char) : Str → Str × Option Str
  | [] => ([], none)
  | x :: xs =>
    if x = c then ([], some xs)
    else
      let r := breakAt c xs
      (x :: r.1, r.2)

/-- Python `s.split(c, n)`: split at the first `n` occurrences of `c`. -/
def splitF (c : Char) : Nat → Str → List Str
  | 0, l => [l]
  | Nat.succ n, l =>
    match breakAt c l with
    | (p, none) => [p]
    | (p, some s) => p :: splitF c n s

/-- Python `s.split(c)` (unlimited splits); `l.length` splits always suffice
because every performed split consumes the occurrence character. -/
def pysplit (c : Char) (l : Str) : List Str := splitF c l.length l

/-- The components of CPython's `urllib.parse.ParseResult`. -/
structure UrlParts where
  scheme : Str
  netloc : Str
  path : Str
  params : Str
  query : Str
  fragment : Str
deriving DecidableEq

/-- CPython `urllib.parse.scheme_chars`: ASCII letters, digits, `+`, `-`, `.`.
`Char.isAlpha`/`Char.isDigit` are ASCII-only, matching CPython's
`c.isascii() and c.isalpha()` combination used for the first character. -/
def schemeChar (c : Char) : Bool :=
  c.isAlpha || c.isDigit || c = '+' || c = '-' || c = '.'

/-- CPython `urlsplit` scheme recognition: split at the first `:` when the part
before it is nonempty, starts with an ASCII letter and continues with scheme
characters; the scheme is lowercased.  Otherwise the url is left untouched. -/
def splitScheme (url : Str) : Str × Str :=
  match breakAt ':' url with
  | (_, none) => ([], url)
  | (before, some after) =>
    if (before.headD ' ').isAlpha && before.tail.all schemeChar then
      (before.map Char.toLower, after)
    else ([], url)

/-- The characters at which `_splitnetloc` stops the authority component. -/
def netlocStop (c : Char) : Bool := c = '/' || c = '?' || c = '#'

/-- Python `if c in url: url.split(c, 1)`, leaving `url` untouched (with an
empty second component) when `c` does not occur. -/
def splitOnFirst (c : Char) (l : Str) : Str × Str :=
  match breakAt c l with
  | (_, none) => (l, [])
  | (p, some s) => (p, s)

/-- CPython `urlparse`'s `_splitparams`, called only when `;` occurs in the
path: split at the first `;` that comes after the last `/` (or at the first
`;` when the path has no `/`). -/
def splitParams (url : Str) : Str × Str :=
  if ';' ∈ url then
    if '/' ∈ url then
      match breakAt '/' url.reverse with
      | (revSuf, some revPre) =>
        match breakAt ';' revSuf.reverse with
        | (_, none) => (url, [])
        | (a, some b) => (revPre.reverse ++ '/' :: a, b)
      | (_, none) => (url, [])
    else
      match breakAt ';' url with
      | (_, none) => (url, [])
      | (a, some b) => (a, b)
  else (url, [])

/-- The characters CPython strips from a url before parsing
(`_UNSAFE_URL_BYTES_TO_REMOVE` = tab, carriage return, newline). -/
def cleanChar (c : Char) : Bool := !(c = '\t' || c = '\r' || c = '\n')

/-- CPython `urllib.parse.urlparse`, for the fragment of behaviour the plugin
relies on: strip unsafe bytes, recognise the scheme, split off the authority
at the first of `/?#` after a leading `//`, then split fragment, query and
params.  A `[` or `]` in the authority raises `ValueError` in CPython unless
it delimits a valid bracketed IPv6/IPvFuture host; the model reports an error
for every bracketed authority (faithful for all non-IPv6 authorities, and no
claim concerns bracketed hosts).  The non-ASCII NFKC netloc check, which only
rejects certain non-ASCII authorities, is not modelled.

`processRest` is the stage after authority recognition: the bracket check
followed by the fragment, query and params splits. -/
def processRest (scheme netloc rest : Str) : Except String UrlParts :=
  if '[' ∈ netloc ∨ ']' ∈ netloc then
    Except.error "Invalid IPv6 URL"
  else
    match splitOnFirst '#' rest with
    | (rest1, fragment) =>
      match splitOnFirst '?' rest1 with
      | (rest2, query) =>
        match splitParams rest2 with
        | (path, params) => Except.ok ⟨scheme, netloc, path, params, query, fragment⟩

/-- `urllib.parse.urlparse`: strip unsafe bytes, recognise the scheme, split
off the authority at the first of `/?#` after a leading `//`, then run
`processRest`. -/
def urlparse (url0 : Str) : Except String UrlParts :=
  let sp := splitScheme (url0.filter cleanChar)
  match sp.2 with
  | '/' :: '/' :: r =>
    processRest sp.1 (r.takeWhile fun c => !netlocStop c) (r.dropWhile fun c => !netlocStop c)
  | u => processRest sp.1 [] u

/-! ## `snakemake_storage_plugin_azure/utils.py` query parsing -/

/-- `utils.parse_query_account_name`: the account is `urlparse(query).netloc`;
a `urlparse` failure is re-raised as `ValueError`. -/
def parse_query_account_name (query : Str) : Except String Str :=
  match urlparse query with
  | Except.error e => Except.error ("Unable to parse storage account name from query: " ++ e)
  | Except.ok p => Except.ok p.netloc

/-- `utils.parse_query_container_name`: `urlparse(query).path.split("/")[1]`;
both a `urlparse` failure and the `IndexError` of `[1]` on a short split
are re-raised as `ValueError`. -/
def parse_query_container_name (query : Str) : Except String Str :=
  match urlparse query with
  | Except.error e => Except.error ("Unable to parse storage container name from query: " ++ e)
  | Except.ok p =>
    match (pysplit '/' p.path).get? 1 with
    | some c => Except.ok c
    | none => Except.error "Unable to parse storage container name from query: IndexError"

/-- `utils.parse_query_path`: `urlparse(query).path.split("/", 2)[-1]`;
`split` never returns an empty list, so `[-1]` is its last element. -/
def parse_query_path (query : Str) : Except String Str :=
  match urlparse query with
  | Except.error e => Except.error ("Unable to parse storage path from query: " ++ e)
  | Except.ok p => Except.ok ((splitF '/' 2 p.path).getLast?.getD [])

/-! ## `StorageProvider.is_valid_query` -/

/-- The result type of query validation. -/
structure StorageQueryValidationResult where
  query : Str
  valid : Bool
  reason : Option String
deriving DecidableEq

/-- In `is_valid_query` the guard is `if not parsed.netloc.isalnum:` — the
bound method `isalnum` is *not called*, and a bound-method object is always
truthy in Python, so the guard is always false.  This constant records that
truthiness. -/
def isalnumBoundMethodTruthy : Bool := true

/-- `StorageProvider.is_valid_query` (identical in both plugin generations):
catch a `urlparse` failure into an invalid result, reject a scheme other than
`az`, then (vacuously, see `isalnumBoundMethodTruthy`) test the account name,
and otherwise accept. -/
def is_valid_query (query : Str) : StorageQueryValidationResult :=
  match urlparse query with
  | Except.error e =>
    { query := query, valid := false, reason := some ("cannot be parsed as URL (" ++ e ++ ")") }
  | Except.ok parsed =>
    if parsed.scheme ≠ "az".data then
      { query := query, valid := false, reason := some "must start with az (az://...)" }
    else if !isalnumBoundMethodTruthy then
      { query := query, valid := false,
        reason := some "azure storage account name must be strictly alphanumeric" }
    else
      { query := query, valid := true, reason := none }

/-- The scheme of a query, when `urlparse` succeeds. -/
def schemeOf (q : Str) : Option Str := (urlparse q).toOption.map UrlParts.scheme

/-! ## `utils.py` endpoint validation

The two endpoint classifiers are anchored Python regexes.  They are translated
by hand into executable predicates: a regex with backtracking accepts a string
iff some decomposition of the string matches the sequence of sub-patterns, so
each classifier is an existential over the split position, realised as
`List.any` over `List.range`. -/

/-- A character of the regex class `[a-z0-9]` (`Char.isLower`/`Char.isDigit`
are exactly the ASCII ranges). -/
def labChar (c : Char) : Bool := c.isLower || c.isDigit

/-- `[a-z0-9]+(\.[a-z0-9]+)*`: one or more nonempty dot-separated
lowercase-alphanumeric labels. -/
def hostLabels (h : Str) : Bool :=
  (pysplit '.' h).all fun seg => !seg.isEmpty && seg.all labChar

/-- The trailing `\/?(.+)?$` of both endpoint regexes.  `\/?` and `(.+)?` are
both optional and `.` matches every character except `\n`, so together they
match an arbitrary newline-free suffix; Python's `$` additionally matches just
before a final newline.  Hence a suffix matches iff every newline in it is its
final character. -/
def dollarTail (t : Str) : Bool := t.dropLast.all fun c => !(c = '\n')

/-- `utils.is_valid_blob_endpoint`:
`^https:\/\/[a-z0-9]+(\.[a-z0-9]+)*\.blob\.core\.windows\.net\/?(.+)?$`. -/
def is_valid_blob_endpoint (s : Str) : Bool :=
  ("https://".data).isPrefixOf s &&
  (let r := s.drop 8
   (List.range (r.length + 1)).any fun i =>
     hostLabels (r.take i) && (".blob.core.windows.net".data).isPrefixOf (r.drop i) &&
       dollarTail ((r.drop i).drop 22))

/-- `\d+\/?(.+)?$`: a nonempty ASCII digit run (`\d` is modelled as ASCII
digits; the plugin only meets ASCII ports) followed by the arbitrary
`$`-tail. -/
def digitsThenTail (r : Str) : Bool :=
  (List.range r.length).any fun k =>
    (r.take (k + 1)).all Char.isDigit && dollarTail (r.drop (k + 1))

/-- `utils.is_valid_mock_endpoint`: `^http:\/\/localhost:\d+\/?(.+)?$` or
`^http:\/\/127\.0\.0\.1:\d+\/?(.+)?$` (both prefixes have length 17). -/
def is_valid_mock_endpoint (s : Str) : Bool :=
  (("http://localhost:".data).isPrefixOf s && digitsThenTail (s.drop 17)) ||
  (("http://127.0.0.1:".data).isPrefixOf s && digitsThenTail (s.drop 17))

/-- `utils.parse_account_name_from_blob_endpoint_url`: reject invalid
endpoints (with a message that depends on the `https://` prefix), then return
`urlparse(url).netloc.split(".")[0]`. -/
def parse_account_name_from_blob_endpoint_url (u : Str) : Except String Str :=
  if is_valid_blob_endpoint u then
    match urlparse u with
    | Except.error e => Except.error e
    | Except.ok p => Except.ok ((pysplit '.' p.netloc).headD [])
  else if ("https://".data).isPrefixOf u then
    Except.error "Invalid blob endpoint URL"
  else
    Except.error "Blob endpoint URL must start with https"

/-- `utils.parse_account_name_from_mock_endpoint_url`:
`urlparse(url).path.lstrip("/")` (no validation, `urlparse` errors
propagate). -/
def parse_account_name_from_mock_endpoint_url (u : Str) : Except String Str :=
  match urlparse u with
  | Except.error e => Except.error e
  | Except.ok p => Except.ok (p.path.dropWhile fun c => c = '/')

/-! ## `StorageObject.__post_init__` (azure generation) -/

/-- The attributes `__post_init__` sets on the storage object. -/
structure StorageObjectState where
  account_name : Str
  blob_path : Str
  container_name : Str
deriving DecidableEq

/-- Outcome of constructing a `StorageObject`. -/
inductive PostInitResult where
  /-- `is_valid_query` was false: the attributes are not set and no check runs. -/
  | skipped
  | ok (st : StorageObjectState)
  /-- the `ValueError` raised when the query account differs from the
  configured account. -/
  | mismatch (queryAccount configuredAccount : Str)
  /-- a `ValueError` propagated from one of the three query parsers. -/
  | parseFailure (msg : String)
deriving DecidableEq

/-- `StorageObject.__post_init__`: when the query is valid, parse account,
blob path and container name (in source order), then raise unless the parsed
account equals the account configured from the endpoint url. -/
def storageObjectPostInit (query : Str) (configuredAccount : Str) : PostInitResult :=
  if (is_valid_query query).valid then
    match parse_query_account_name query with
    | Except.error e => PostInitResult.parseFailure e
    | Except.ok a =>
      match parse_query_path query with
      | Except.error e => PostInitResult.parseFailure e
      | Except.ok bp =>
        match parse_query_container_name query with
        | Except.error e => PostInitResult.parseFailure e
        | Except.ok cn =>
          if a ≠ configuredAccount then PostInitResult.mismatch a configuredAccount
          else PostInitResult.ok ⟨a, bp, cn⟩
  else PostInitResult.skipped

/-! ## Blob backend state (for `remove` and `store_object`)

The backend is modelled as explicit state: a list of existing containers and
an association list from (container, path) keys to blob contents. -/

structure AzState where
  containers : List Str
  blobs : List ((Str × Str) × Str)
deriving DecidableEq

/-- `BlobClient.exists()`: the key is present (false as well when the
container itself is absent, as in the SDK). -/
def blobExistsB (st : AzState) (c p : Str) : Bool :=
  st.blobs.any fun b => b.1 = (c, p)

/-- `BlobClient.delete_blob()`: drop the key. -/
def deleteBlobOp (st : AzState) (c p : Str) : AzState :=
  ⟨st.containers, st.blobs.filter fun b => !(b.1 = (c, p))⟩

/-- `ContainerClient.exists()`. -/
def containerExistsB (st : AzState) (c : Str) : Bool :=
  st.containers.any fun x => x = c

/-- `ContainerClient.create_container(...)`. -/
def createContainerOp (st : AzState) (c : Str) : AzState :=
  ⟨c :: st.containers, st.blobs⟩

/-- `BlobClient.upload_blob(data, overwrite=True)`: replace any blob stored
under the key. -/
def uploadBlobOp (st : AzState) (c p : Str) (content : Str) : AzState :=
  ⟨st.containers, ((c, p), content) :: st.blobs.filter fun b => !(b.1 = (c, p))⟩

/-- `StorageObject.remove`: delete the blob only when it exists. -/
def removeOp (st : AzState) (c p : Str) : AzState :=
  if blobExistsB st c p then deleteBlobOp st c p else st

/-- `StorageObject.store_object`: create the container when absent, then
upload (with overwrite) when the local file exists (`localContent` is the
local file's content, `none` when the local path does not exist). -/
def storeObjectOp (st : AzState) (c p : Str) (localContent : Option Str) : AzState :=
  let st1 := if containerExistsB st c then st else createContainerOp st c
  match localContent with
  | none => st1
  | some d => uploadBlobOp st1 c p d

/-! ## The claims' own endpoint grammars

These two definitions follow the *spec's words* (not the source), so that the
claims C6 and C7 about what the classifiers accept can be compared with the
source classifiers and refuted where they differ. -/

/-- The language claim C6 asserts for the production classifier:
`https://<label>(.<label>)*.blob.core.windows.net` optionally followed by
`/...`. -/
def claimedBlobLang (s : Str) : Bool :=
  ("https://".data).isPrefixOf s &&
  (let r := s.drop 8
   (List.range (r.length + 1)).any fun i =>
     hostLabels (r.take i) && (".blob.core.windows.net".data).isPrefixOf (r.drop i) &&
       (let t := (r.drop i).drop 22
        t.isEmpty || t.head? = some '/'))

/-- One host alternative of the language claim C7 asserts:
`http://<host>:<port>/<account>` with a digit port and a nonempty account. -/
def claimedMockHost (pre : Str) (s : Str) : Bool :=
  pre.isPrefixOf s &&
  (let r := s.drop pre.length
   (List.range r.length).any fun k =>
     (r.take (k + 1)).all Char.isDigit && ((r.drop (k + 1)).head? = some '/') &&
       !((r.drop (k + 2)).isEmpty))

/-- The language claim C7 asserts for the emulator classifier. -/
def claimedMockLang (s : Str) : Bool :=
  claimedMockHost ("http://localhost:".data) s || claimedMockHost ("http://127.0.0.1:".data) s

/-! ## Well-formed query building blocks -/

/-- A character that acts as no URL delimiter at all: being composed of such
characters makes an account, container or path segment survive `urlparse`
verbatim. -/
def plainChar (c : Char) : Bool :=
  !(c = '/' || c = '?' || c = '#' || c = '[' || c = ']' || c = ';' ||
    c = '\t' || c = '\r' || c = '\n')

/-- A character that a URL *path* passes through verbatim: not a fragment,
query or params delimiter and not stripped as an unsafe byte (`/` allowed). -/
def pathChar (c : Char) : Bool :=
  !(c = '?' || c = '#' || c = ';' || c = '\t' || c = '\r' || c = '\n')

/-- A character of a host matched by `[a-z0-9]+(\.[a-z0-9]+)*`. -/
def hostChar (c : Char) : Bool := labChar c || c = '.'

/-- Python `"/".join(segments)`. -/
def joinSlash : List Str → Str
  | [] => []
  | [s] => s
  | s :: rest => s ++ '/' :: joinSlash rest

/-- The three-part query `az://A/C/P1/../Pn` of claim C3. -/
def azQuery (A C : Str) (ps : List Str) : Str :=
  "az://".data ++ (A ++ ('/' :: (C ++ ('/' :: joinSlash ps))))

/-- Python truthiness of a fallible call: did it return normally? -/
def isOkE {α : Type} (e : Except String α) : Bool :=
  match e with
  | Except.ok _ => true
  | Except.error _ => false

/-! # Basic lemmas about the splitting helpers -/

theorem breakAt_not_mem {c : Char} {l : Str} (h : c ∉ l) : breakAt c l = (l, none) := by
  induction l with
  | nil => rfl
  | cons x xs ih =>
    have hx : ¬ x = c := by rintro rfl; exact h (List.mem_cons_self _ _)
    have hxs : c ∉ xs := fun hm => h (List.mem_cons_of_mem _ hm)
    simp [breakAt, hx, ih hxs]

theorem breakAt_first {c : Char} (s : Str) {p : Str} (h : c ∉ p) :
    breakAt c (p ++ c :: s) = (p, some s) := by
  induction p with
  | nil => simp [breakAt]
  | cons x xs ih =>
    have hx : ¬ x = c := by rintro rfl; exact h (List.mem_cons_self _ _)
    have hxs : c ∉ xs := fun hm => h (List.mem_cons_of_mem _ hm)
    simp [breakAt, hx, ih hxs]

theorem splitF_not_mem {c : Char} (n : Nat) {l : Str} (h : c ∉ l) : splitF c n l = [l] := by
  cases n with
  | zero => rfl
  | succ n => simp [splitF, breakAt_not_mem h]

theorem splitF_found {c : Char} {l p s : Str} (n : Nat) (h : breakAt c l = (p, some s)) :
    splitF c (n + 1) l = p :: splitF c n s := by
  simp [splitF, h]

theorem splitF_ne_nil {c : Char} {n : Nat} {l : Str} : splitF c n l ≠ [] := by
  cases n with
  | zero => simp [splitF]
  | succ n =>
    unfold splitF
    match h : breakAt c l with
    | (p, none) => simp
    | (p, some s) => simp

theorem breakAt_mem {c : Char} {l : Str} (h : c ∈ l) :
    ∃ p s, breakAt c l = (p, some s) := by
  induction l with
  | nil => cases h
  | cons x xs ih =>
    by_cases hx : x = c
    · exact ⟨[], xs, by simp [breakAt, hx]⟩
    · have hxs : c ∈ xs := by
        rcases List.mem_cons.mp h with h1 | h1
        · exact absurd h1.symm hx
        · exact h1
      obtain ⟨p, s, hps⟩ := ih hxs
      exact ⟨x :: p, s, by simp [breakAt, hx, hps]⟩

theorem takeWhile_all_eq {p : Char → Bool} {l : Str} (h : l.all p = true) :
    l.takeWhile p = l := by
  induction l with
  | nil => rfl
  | cons x xs ih =>
    rw [List.all_cons, Bool.and_eq_true] at h
    simp [List.takeWhile_cons, h.1, ih h.2]

theorem dropWhile_all_eq {p : Char → Bool} {l : Str} (h : l.all p = true) :
    l.dropWhile p = [] := by
  induction l with
  | nil => rfl
  | cons x xs ih =>
    rw [List.all_cons, Bool.and_eq_true] at h
    simp [List.dropWhile_cons, h.1, ih h.2]

theorem takeWhile_append_stop {p : Char → Bool} {c : Char} (hc : p c = false)
    (xs r : Str) : (xs ++ c :: r).takeWhile p = xs.takeWhile p := by
  induction xs with
  | nil => simp [List.takeWhile_cons, hc]
  | cons x t ih =>
    by_cases hx : p x
    · simp [List.takeWhile_cons, hx, ih]
    · simp [List.takeWhile_cons, hx]

theorem dropWhile_append_stop {p : Char → Bool} {c : Char} (hc : p c = false)
    {xs : Str} (hxs : xs.all p = true) (r : Str) :
    (xs ++ c :: r).dropWhile p = c :: r := by
  induction xs with
  | nil => simp [List.dropWhile_cons, hc]
  | cons x t ih =>
    rw [List.all_cons, Bool.and_eq_true] at hxs
    simp [List.dropWhile_cons, hxs.1, ih hxs.2]

theorem filter_all_eq {p : Char → Bool} {l : Str} (h : l.all p = true) :
    l.filter p = l := by
  induction l with
  | nil => rfl
  | cons x xs ih =>
    rw [List.all_cons, Bool.and_eq_true] at h
    simp [List.filter_cons, h.1, ih h.2]

theorem all_imp {p q : Char → Bool} (h : ∀ c, p c = true → q c = true) {l : Str}
    (hl : l.all p = true) : l.all q = true := by
  rw [List.all_eq_true] at hl ⊢
  exact fun c hc => h c (hl c hc)

theorem not_mem_of_all {p : Char → Bool} {l : Str} (hl : l.all p = true) {c : Char}
    (hc : p c = false) : c ∉ l := by
  intro hm
  have := List.all_eq_true.mp hl c hm
  rw [hc] at this
  cases this

theorem all_dropLast {p : Char → Bool} {l : Str} (h : l.all p = true) :
    l.dropLast.all p = true := by
  rw [List.all_eq_true] at h ⊢
  exact fun c hc => h c ((List.dropLast_sublist l).subset hc)

theorem ne_of_class {p : Char → Bool} {c k : Char} (h : p c = true) (hk : p k = false) :
    ¬ c = k := by
  rintro rfl
  rw [h] at hk
  cases hk

/-! # Character-class implications -/

theorem plainChar_pathChar : ∀ c : Char, plainChar c = true → pathChar c = true := by
  intro c h
  simp only [plainChar, Bool.not_eq_true', Bool.or_eq_false_iff] at h
  simp only [pathChar, Bool.not_eq_true', Bool.or_eq_false_iff]
  tauto

theorem plainChar_cleanChar : ∀ c : Char, plainChar c = true → cleanChar c = true := by
  intro c h
  simp only [plainChar, Bool.not_eq_true', Bool.or_eq_false_iff] at h
  simp only [cleanChar, Bool.not_eq_true', Bool.or_eq_false_iff]
  tauto

theorem pathChar_cleanChar : ∀ c : Char, pathChar c = true → cleanChar c = true := by
  intro c h
  simp only [pathChar, Bool.not_eq_true', Bool.or_eq_false_iff] at h
  simp only [cleanChar, Bool.not_eq_true', Bool.or_eq_false_iff]
  tauto

theorem plainChar_not_stop : ∀ c : Char, plainChar c = true → (!netlocStop c) = true := by
  intro c h
  simp only [plainChar, Bool.not_eq_true', Bool.or_eq_false_iff] at h
  simp only [netlocStop, Bool.not_eq_true', Bool.or_eq_false_iff]
  tauto

theorem plainChar_notNL : ∀ c : Char, plainChar c = true → (!(c = '\n')) = true := by
  intro c h
  simp only [plainChar, Bool.not_eq_true', Bool.or_eq_false_iff] at h
  simp only [Bool.not_eq_true']
  tauto

theorem cleanChar_notNL : ∀ c : Char, cleanChar c = true → (!(c = '\n')) = true := by
  intro c h
  simp only [cleanChar, Bool.not_eq_true', Bool.or_eq_false_iff] at h
  simp only [Bool.not_eq_true']
  tauto

theorem hostChar_plainChar : ∀ c : Char, hostChar c = true → plainChar c = true := by
  intro c h
  have d1 : ¬ c = '/' := ne_of_class h (by decide)
  have d2 : ¬ c = '?' := ne_of_class h (by decide)
  have d3 : ¬ c = '#' := ne_of_class h (by decide)
  have d4 : ¬ c = '[' := ne_of_class h (by decide)
  have d5 : ¬ c = ']' := ne_of_class h (by decide)
  have d6 : ¬ c = ';' := ne_of_class h (by decide)
  have d7 : ¬ c = '\t' := ne_of_class h (by decide)
  have d8 : ¬ c = '\r' := ne_of_class h (by decide)
  have d9 : ¬ c = '\n' := ne_of_class h (by decide)
  simp [plainChar, d1, d2, d3, d4, d5, d6, d7, d8, d9]

theorem digit_plainChar : ∀ c : Char, c.isDigit = true → plainChar c = true := by
  intro c h
  have d1 : ¬ c = '/' := ne_of_class h (by decide)
  have d2 : ¬ c = '?' := ne_of_class h (by decide)
  have d3 : ¬ c = '#' := ne_of_class h (by decide)
  have d4 : ¬ c = '[' := ne_of_class h (by decide)
  have d5 : ¬ c = ']' := ne_of_class h (by decide)
  have d6 : ¬ c = ';' := ne_of_class h (by decide)
  have d7 : ¬ c = '\t' := ne_of_class h (by decide)
  have d8 : ¬ c = '\r' := ne_of_class h (by decide)
  have d9 : ¬ c = '\n' := ne_of_class h (by decide)
  simp [plainChar, d1, d2, d3, d4, d5, d6, d7, d8, d9]

/-! # Appending and prefixes -/

theorem take_append_len (l t : List Char) : (l ++ t).take l.length = l := by
  induction l with
  | nil => rfl
  | cons x xs ih => simp [ih]

theorem drop_append_len (l t : List Char) : (l ++ t).drop l.length = t := by
  induction l with
  | nil => rfl
  | cons x xs ih => simp [ih]

theorem isPrefixOf_self_append (l t : List Char) : l.isPrefixOf (l ++ t) = true := by
  induction l with
  | nil => cases t <;> rfl
  | cons x xs ih => simp [List.isPrefixOf, ih]

/-! # Shape of `urlparse` on well-formed inputs -/

theorem splitScheme_eq {S : Str} (rest : Str) (hcolon : ':' ∉ S)
    (hhead : (S.headD ' ').isAlpha = true) (htail : S.tail.all schemeChar = true) :
    splitScheme (S ++ ':' :: rest) = (S.map Char.toLower, rest) := by
  unfold splitScheme
  rw [breakAt_first rest hcolon]
  dsimp only
  rw [hhead, htail]
  rfl

theorem splitOnFirst_not_mem {c : Char} {l : Str} (h : c ∉ l) :
    splitOnFirst c l = (l, []) := by
  simp [splitOnFirst, breakAt_not_mem h]

theorem splitParams_not_mem {l : Str} (h : ';' ∉ l) : splitParams l = (l, []) := by
  simp [splitParams, h]

theorem processRest_plain {scheme netloc rest : Str}
    (hbl : '[' ∉ netloc) (hbr : ']' ∉ netloc) (hrest : rest.all pathChar = true) :
    processRest scheme netloc rest = Except.ok ⟨scheme, netloc, rest, [], [], []⟩ := by
  have h1 : '#' ∉ rest := not_mem_of_all hrest (by decide)
  have h2 : '?' ∉ rest := not_mem_of_all hrest (by decide)
  have h3 : ';' ∉ rest := not_mem_of_all hrest (by decide)
  simp [processRest, hbl, hbr, splitOnFirst_not_mem h1, splitOnFirst_not_mem h2,
    splitParams_not_mem h3]

theorem processRest_ok {scheme netloc rest : Str}
    (hbl : '[' ∉ netloc) (hbr : ']' ∉ netloc) :
    ∃ pr : UrlParts, processRest scheme netloc rest = Except.ok pr ∧
      pr.scheme = scheme ∧ pr.netloc = netloc := by
  unfold processRest
  rw [if_neg (by simp [hbl, hbr])]
  rcases h1 : splitOnFirst '#' rest with ⟨r1, fr⟩
  dsimp only
  rcases h2 : splitOnFirst '?' r1 with ⟨r2, qu⟩
  dsimp only
  rcases h3 : splitParams r2 with ⟨pa, par⟩
  dsimp only
  exact ⟨⟨scheme, netloc, pa, par, qu, fr⟩, rfl, rfl, rfl⟩

theorem urlparse_three {S N P' : Str}
    (hcolon : ':' ∉ S) (hhead : (S.headD ' ').isAlpha = true)
    (htail : S.tail.all schemeChar = true) (hSclean : S.all cleanChar = true)
    (hN : N.all plainChar = true) (hP : P'.all pathChar = true) :
    urlparse (S ++ ':' :: '/' :: '/' :: (N ++ '/' :: P')) =
      Except.ok ⟨S.map Char.toLower, N, '/' :: P', [], [], []⟩ := by
  have hNclean : N.all cleanChar = true := all_imp plainChar_cleanChar hN
  have hPclean : P'.all cleanChar = true := all_imp pathChar_cleanChar hP
  have hall : (S ++ ':' :: '/' :: '/' :: (N ++ '/' :: P')).all cleanChar = true := by
    simp +decide [List.all_append, List.all_cons, hSclean, hNclean, hPclean]
  have hNstop : N.all (fun c => !netlocStop c) = true := all_imp plainChar_not_stop hN
  have hbl : '[' ∉ N := not_mem_of_all hN (by decide)
  have hbr : ']' ∉ N := not_mem_of_all hN (by decide)
  have hPall : ('/' :: P').all pathChar = true := by
    simp +decide [List.all_cons, hP]
  simp only [urlparse]
  rw [filter_all_eq hall, splitScheme_eq _ hcolon hhead htail]
  change processRest (S.map Char.toLower)
      ((N ++ '/' :: P').takeWhile fun c => !netlocStop c)
      ((N ++ '/' :: P').dropWhile fun c => !netlocStop c) = _
  rw [takeWhile_append_stop (by decide) N P', takeWhile_all_eq hNstop,
    dropWhile_append_stop (by decide) hNstop P']
  exact processRest_plain hbl hbr hPall

theorem splitF_shape {c : Char} {C P : Str} (hC : c ∉ C) (n : Nat) :
    splitF c (n + 2) (c :: (C ++ c :: P)) = [] :: C :: splitF c n P := by
  have h0 : breakAt c (c :: (C ++ c :: P)) = ([], some (C ++ c :: P)) := by
    simp [breakAt]
  rw [splitF_found (n + 1) h0, splitF_found n (breakAt_first P hC)]

theorem pysplit_cons_second {C P : Str} (hC : '/' ∉ C) :
    (pysplit '/' ('/' :: (C ++ '/' :: P))).get? 1 = some C := by
  unfold pysplit
  have hlen : ('/' :: (C ++ '/' :: P)).length = (C.length + P.length) + 2 := by
    simp [List.length_append]
    omega
  rw [hlen, splitF_shape hC]
  rfl

theorem pysplit_not_mem {c : Char} {l : Str} (h : c ∉ l) : pysplit c l = [l] :=
  splitF_not_mem _ h

theorem breakAt_fst (c : Char) (l : Str) :
    (breakAt c l).1 = l.takeWhile fun x => !(x = c) := by
  induction l with
  | nil => rfl
  | cons x xs ih =>
    by_cases hx : x = c
    · simp [breakAt, hx, List.takeWhile_cons]
    · simp [breakAt, hx, List.takeWhile_cons, ih]

theorem pysplit_two_pieces {c : Char} {l : Str} (h : c ∈ l) :
    ∃ a b rest2, pysplit c l = a :: b :: rest2 := by
  obtain ⟨p, s, hps⟩ := breakAt_mem h
  cases l with
  | nil => cases h
  | cons x xs =>
    unfold pysplit
    rw [show (x :: xs).length = xs.length + 1 from rfl, splitF_found xs.length hps]
    cases hsp : splitF c xs.length s with
    | nil => exact absurd hsp splitF_ne_nil
    | cons b r2 => exact ⟨p, b, r2, rfl⟩

theorem pysplit_head {c : Char} {l : Str} (h : c ∈ l) :
    (pysplit c l).headD [] = l.takeWhile fun x => !(x = c) := by
  obtain ⟨p, s, hps⟩ := breakAt_mem h
  have hp : p = l.takeWhile fun x => !(x = c) := by
    have hf := breakAt_fst c l
    rw [hps] at hf
    exact hf
  cases l with
  | nil => cases h
  | cons x xs =>
    unfold pysplit
    rw [show (x :: xs).length = xs.length + 1 from rfl, splitF_found xs.length hps,
      List.headD_cons]
    exact hp

theorem urlparse_authority_only {S N : Str}
    (hcolon : ':' ∉ S) (hhead : (S.headD ' ').isAlpha = true)
    (htail : S.tail.all schemeChar = true) (hSclean : S.all cleanChar = true)
    (hN : N.all plainChar = true) :
    urlparse (S ++ ':' :: '/' :: '/' :: N) =
      Except.ok ⟨S.map Char.toLower, N, [], [], [], []⟩ := by
  have hNclean : N.all cleanChar = true := all_imp plainChar_cleanChar hN
  have hall : (S ++ ':' :: '/' :: '/' :: N).all cleanChar = true := by
    simp +decide [List.all_append, List.all_cons, hSclean, hNclean]
  have hNstop : N.all (fun c => !netlocStop c) = true := all_imp plainChar_not_stop hN
  have hbl : '[' ∉ N := not_mem_of_all hN (by decide)
  have hbr : ']' ∉ N := not_mem_of_all hN (by decide)
  simp only [urlparse]
  rw [filter_all_eq hall, splitScheme_eq _ hcolon hhead htail]
  change processRest (S.map Char.toLower)
      (N.takeWhile fun c => !netlocStop c)
      (N.dropWhile fun c => !netlocStop c) = _
  rw [takeWhile_all_eq hNstop, dropWhile_all_eq hNstop]
  exact processRest_plain hbl hbr rfl

theorem urlparse_tail {S N t : Str}
    (hcolon : ':' ∉ S) (hhead : (S.headD ' ').isAlpha = true)
    (htail : S.tail.all schemeChar = true) (hSclean : S.all cleanChar = true)
    (hN : N.all plainChar = true) (ht : t.all cleanChar = true) :
    ∃ pr : UrlParts, urlparse (S ++ ':' :: '/' :: '/' :: (N ++ '/' :: t)) = Except.ok pr ∧
      pr.scheme = S.map Char.toLower ∧ pr.netloc = N := by
  have hNclean : N.all cleanChar = true := all_imp plainChar_cleanChar hN
  have hall : (S ++ ':' :: '/' :: '/' :: (N ++ '/' :: t)).all cleanChar = true := by
    simp +decide [List.all_append, List.all_cons, hSclean, hNclean, ht]
  have hNstop : N.all (fun c => !netlocStop c) = true := all_imp plainChar_not_stop hN
  have hbl : '[' ∉ N := not_mem_of_all hN (by decide)
  have hbr : ']' ∉ N := not_mem_of_all hN (by decide)
  have hcomp : urlparse (S ++ ':' :: '/' :: '/' :: (N ++ '/' :: t)) =
      processRest (S.map Char.toLower) N ('/' :: t) := by
    simp only [urlparse]
    rw [filter_all_eq hall, splitScheme_eq _ hcolon hhead htail]
    change processRest (S.map Char.toLower)
        ((N ++ '/' :: t).takeWhile fun c => !netlocStop c)
        ((N ++ '/' :: t).dropWhile fun c => !netlocStop c) = _
    rw [takeWhile_append_stop (by decide) N t, takeWhile_all_eq hNstop,
      dropWhile_append_stop (by decide) hNstop t]
  obtain ⟨pr, h1, h2, h3⟩ := @processRest_ok (S.map Char.toLower) N ('/' :: t) hbl hbr
  exact ⟨pr, by rw [hcomp]; exact h1, h2, h3⟩

/-- The first `.`-separated piece of `H ++ ".blob.core.windows.net"` is the
first label of `H`. -/
theorem first_label (H : Str) :
    (pysplit '.' (H ++ ".blob.core.windows.net".data)).headD [] =
      H.takeWhile fun x => !(x = '.') := by
  have hdot : '.' ∈ H ++ ".blob.core.windows.net".data :=
    List.mem_append.mpr (Or.inr (by decide))
  rw [pysplit_head hdot]
  rw [show (".blob.core.windows.net".data : Str) = '.' :: ("blob.core.windows.net".data)
    from rfl]
  exact takeWhile_append_stop (by decide) H _

/-- The digit run plus `$`-tail pattern accepts `PORT/ACCOUNT`. -/
theorem digits_tail_core {port acct : Str} (hport : port.all Char.isDigit = true)
    (hportne : port ≠ []) (hacct : acct.all plainChar = true) :
    digitsThenTail (port ++ ('/' :: acct)) = true := by
  cases port with
  | nil => exact absurd rfl hportne
  | cons c cs =>
    unfold digitsThenTail
    rw [List.any_eq_true]
    refine ⟨cs.length, ?_, ?_⟩
    · rw [List.mem_range, List.length_append]
      simp
      omega
    · have e1 : ((c :: cs) ++ ('/' :: acct)).take (cs.length + 1) = c :: cs :=
        take_append_len (c :: cs) ('/' :: acct)
      have e2 : ((c :: cs) ++ ('/' :: acct)).drop (cs.length + 1) = '/' :: acct :=
        drop_append_len (c :: cs) ('/' :: acct)
      rw [Bool.and_eq_true, e1, e2]
      refine ⟨hport, ?_⟩
      unfold dollarTail
      apply all_dropLast
      have hn : acct.all (fun c => !(c = '\n')) = true := all_imp plainChar_notNL hacct
      simp +decide [List.all_cons, hn]

/-- `lstrip("/")` of the parsed path of `http://NETLOC/ACCT` is `ACCT`. -/
theorem mock_account {N acct : Str} (hN : N.all plainChar = true)
    (hacct : acct.all plainChar = true) (hacctne : acct ≠ []) :
    parse_account_name_from_mock_endpoint_url
        ("http".data ++ ':' :: '/' :: '/' :: (N ++ '/' :: acct)) = Except.ok acct := by
  have hu := @urlparse_three ("http".data) N acct (by decide) (by decide) (by decide)
    (by decide) hN (all_imp plainChar_pathChar hacct)
  unfold parse_account_name_from_mock_endpoint_url
  rw [hu]
  dsimp only
  cases acct with
  | nil => exact absurd rfl hacctne
  | cons a as =>
    have hap : plainChar a = true := by
      rw [List.all_cons, Bool.and_eq_true] at hacct
      exact hacct.1
    have hane : ¬ a = '/' := ne_of_class hap (by decide)
    simp +decide [List.dropWhile_cons, hane]

theorem drop_localhost (X : Str) : ("http://localhost:".data ++ X).drop 17 = X :=
  drop_append_len ("http://localhost:".data) X

theorem drop_loopback (X : Str) : ("http://127.0.0.1:".data ++ X).drop 17 = X :=
  drop_append_len ("http://127.0.0.1:".data) X

/-! # Well-formed three-part queries -/

theorem joinSlash_pathChar {ps : List Str} (h : ∀ s ∈ ps, s.all plainChar = true) :
    (joinSlash ps).all pathChar = true := by
  induction ps with
  | nil => rfl
  | cons s rest ih =>
    cases rest with
    | nil =>
      simpa [joinSlash] using all_imp plainChar_pathChar (h s (by simp))
    | cons s2 r2 =>
      have h1 := all_imp plainChar_pathChar (h s (by simp))
      have h2 := ih fun x hx => h x (List.mem_cons_of_mem _ hx)
      simp +decide [joinSlash, List.all_append, List.all_cons, h1, h2]

theorem joinSlash_head {s0 : Str} (rest : List Str) (h : s0 ≠ []) :
    (joinSlash (s0 :: rest)).head? = s0.head? := by
  cases rest with
  | nil => cases s0 with
    | nil => exact absurd rfl h
    | cons c cs => simp [joinSlash]
  | cons b r =>
    cases s0 with
    | nil => exact absurd rfl h
    | cons c cs => simp [joinSlash]

theorem azQuery_parsed {A C : Str} {ps : List Str}
    (hA : A.all plainChar = true) (hC : C.all plainChar = true)
    (hps : ∀ s ∈ ps, s.all plainChar = true) :
    urlparse (azQuery A C ps) =
      Except.ok ⟨"az".data, A, '/' :: (C ++ '/' :: joinSlash ps), [], [], []⟩ := by
  have hCpath : C.all pathChar = true := all_imp plainChar_pathChar hC
  have hP' : (C ++ '/' :: joinSlash ps).all pathChar = true := by
    simp +decide [List.all_append, List.all_cons, hCpath, joinSlash_pathChar hps]
  have h3 := @urlparse_three ("az".data) A (C ++ '/' :: joinSlash ps)
    (by decide) (by decide) (by decide) (by decide) hA hP'
  rw [show (List.map Char.toLower ("az".data)) = "az".data from by decide] at h3
  exact h3

theorem parse_account_azQuery {A C : Str} {ps : List Str}
    (hA : A.all plainChar = true) (hC : C.all plainChar = true)
    (hps : ∀ s ∈ ps, s.all plainChar = true) :
    parse_query_account_name (azQuery A C ps) = Except.ok A := by
  unfold parse_query_account_name
  rw [azQuery_parsed hA hC hps]

theorem parse_container_azQuery {A C : Str} {ps : List Str}
    (hA : A.all plainChar = true) (hC : C.all plainChar = true)
    (hps : ∀ s ∈ ps, s.all plainChar = true) :
    parse_query_container_name (azQuery A C ps) = Except.ok C := by
  have hCs : '/' ∉ C := not_mem_of_all hC (by decide)
  unfold parse_query_container_name
  rw [azQuery_parsed hA hC hps]
  dsimp only
  rw [pysplit_cons_second hCs]

theorem parse_path_azQuery {A C : Str} {ps : List Str}
    (hA : A.all plainChar = true) (hC : C.all plainChar = true)
    (hps : ∀ s ∈ ps, s.all plainChar = true) :
    parse_query_path (azQuery A C ps) = Except.ok (joinSlash ps) := by
  have hCs : '/' ∉ C := not_mem_of_all hC (by decide)
  unfold parse_query_path
  rw [azQuery_parsed hA hC hps]
  dsimp only
  rw [splitF_shape hCs 0]
  rfl

/-! # Equations for the validator -/

theorem is_valid_query_ok {q : Str} {p : UrlParts} (h : urlparse q = Except.ok p) :
    is_valid_query q =
      (if p.scheme ≠ "az".data then
        { query := q, valid := false, reason := some "must start with az (az://...)" }
       else { query := q, valid := true, reason := none }) := by
  unfold is_valid_query
  rw [h]
  dsimp only
  by_cases hs : p.scheme = "az".data
  · simp [hs, isalnumBoundMethodTruthy]
  · simp [hs]

theorem is_valid_query_err {q : Str} {e : String} (h : urlparse q = Except.error e) :
    is_valid_query q =
      { query := q, valid := false,
        reason := some ("cannot be parsed as URL (" ++ e ++ ")") } := by
  unfold is_valid_query
  rw [h]

/-! # Claims -/

/-- C1 (code bug in the source): the validator is intended to reject names
with characters outside the legal set — its own error message reads "azure
storage account name must be strictly alphanumeric" — but the guard tests the
truthiness of the *uncalled* bound method `parsed.netloc.isalnum`, which is
always truthy, so the rejection branch never runs: both the two-part query
`az://container**notvalid/path` of the spec's scenario and a three-part query
with a starred container validate as `valid = true`, where the claim says
`valid = false`. -/
theorem c1_star_names_accepted :
    (is_valid_query ("az://container**notvalid/path".data)).valid = true ∧
    (is_valid_query ("az://acct/conta*iner/path".data)).valid = true :=
  ⟨rfl, rfl⟩

/-- C2: for a query the provider accepts (`is_valid_query`) and parses, the
constructed storage object raises the account-mismatch `ValueError` exactly
when the query's account differs from the account configured from the
endpoint url; when they agree the object is built with the parsed parts and
no such error is raised. -/
theorem c2_account_guard (q cfg a bp cn : Str)
    (hv : (is_valid_query q).valid = true)
    (ha : parse_query_account_name q = Except.ok a)
    (hp : parse_query_path q = Except.ok bp)
    (hc : parse_query_container_name q = Except.ok cn) :
    (a ≠ cfg → storageObjectPostInit q cfg = PostInitResult.mismatch a cfg) ∧
    (a = cfg → storageObjectPostInit q cfg = PostInitResult.ok ⟨a, bp, cn⟩) := by
  unfold storageObjectPostInit
  rw [if_pos hv, ha]
  dsimp only
  rw [hp]
  dsimp only
  rw [hc]
  dsimp only
  constructor
  · intro hne
    rw [if_pos hne]
  · intro heq
    rw [if_neg (by simp [heq])]

/-- Witness for C2: `az://acct/container/file.txt` against configured account
`other` raises the mismatch error; against `acct` it constructs the object. -/
theorem c2_account_guard_witness :
    storageObjectPostInit ("az://acct/container/file.txt".data) ("other".data) =
      PostInitResult.mismatch ("acct".data) ("other".data) ∧
    storageObjectPostInit ("az://acct/container/file.txt".data) ("acct".data) =
      PostInitResult.ok ⟨"acct".data, "file.txt".data, "container".data⟩ := by
  constructor
  · exact (c2_account_guard _ _ _ _ _ (by rfl) (by rfl) (by rfl) (by rfl)).1 (by decide)
  · exact (c2_account_guard _ _ _ _ _ (by rfl) (by rfl) (by rfl) (by rfl)).2 rfl

/-- C3: for every well-formed three-part query `az://A/C/P1/../Pn` (nonempty
account and container, at least one path segment, all made of plain
non-delimiter characters), parsing yields account `A`, container `C` and path
`P1/../Pn` (the remaining segments joined by `/`). -/
theorem c3_three_part_parse (A C : Str) (ps : List Str)
    (hA : A.all plainChar = true) (hAne : A ≠ [])
    (hC : C.all plainChar = true) (hCne : C ≠ [])
    (hps : ∀ s ∈ ps, s.all plainChar = true) (hpsne : ps ≠ []) :
    parse_query_account_name (azQuery A C ps) = Except.ok A ∧
    parse_query_container_name (azQuery A C ps) = Except.ok C ∧
    parse_query_path (azQuery A C ps) = Except.ok (joinSlash ps) :=
  ⟨parse_account_azQuery hA hC hps, parse_container_azQuery hA hC hps,
    parse_path_azQuery hA hC hps⟩

/-- Witness for C3: the spec's scenario
`parse("az://acct/container/path/example/file.txt")`. -/
theorem c3_three_part_parse_witness :
    azQuery ("acct".data) ("container".data)
        ["path".data, "example".data, "file.txt".data] =
      ("az://acct/container/path/example/file.txt".data) ∧
    parse_query_account_name ("az://acct/container/path/example/file.txt".data) =
      Except.ok ("acct".data) ∧
    parse_query_container_name ("az://acct/container/path/example/file.txt".data) =
      Except.ok ("container".data) ∧
    parse_query_path ("az://acct/container/path/example/file.txt".data) =
      Except.ok ("path/example/file.txt".data) := by
  have h := c3_three_part_parse ("acct".data) ("container".data)
    ["path".data, "example".data, "file.txt".data]
    (by decide) (by decide) (by decide) (by decide) (by decide) (by decide)
  exact ⟨rfl, h.1, h.2.1, h.2.2⟩

/-- C4 counterexample: the query `az://acct/container//x` is accepted by the
parser, and the resulting path component `/x` *does* begin with `/`. -/
theorem c4_cex :
    parse_query_path ("az://acct/container//x".data) = Except.ok ("/x".data) ∧
    ("/x".data).head? = some '/' :=
  ⟨rfl, rfl⟩

/-- C4 (amended): for well-formed three-part queries whose first path segment
is nonempty (and all of whose components are plain), the parsed path does not
begin with `/`; in general an accepted query with an empty segment directly
after the container yields a path beginning with `/` (see the
counterexample). -/
theorem c4_path_no_leading_slash (A C s0 : Str) (rest : List Str)
    (hA : A.all plainChar = true) (hC : C.all plainChar = true)
    (hs0 : s0.all plainChar = true) (hs0ne : s0 ≠ [])
    (hrest : ∀ s ∈ rest, s.all plainChar = true) :
    parse_query_path (azQuery A C (s0 :: rest)) = Except.ok (joinSlash (s0 :: rest)) ∧
    (joinSlash (s0 :: rest)).head? ≠ some '/' := by
  have hps : ∀ s ∈ s0 :: rest, s.all plainChar = true := by
    intro s hs
    rcases List.mem_cons.mp hs with h1 | h1
    · exact h1 ▸ hs0
    · exact hrest s h1
  refine ⟨parse_path_azQuery hA hC hps, ?_⟩
  rw [joinSlash_head rest hs0ne]
  cases s0 with
  | nil => exact absurd rfl hs0ne
  | cons c cs =>
    have hcp : plainChar c = true := by
      have h2 := hs0
      rw [List.all_cons, Bool.and_eq_true] at h2
      exact h2.1
    have hne := ne_of_class hcp (show plainChar '/' = false from by decide)
    simp [hne]

/-- Witness for C4 (amended) at `az://acct/container/dir/file.txt`. -/
theorem c4_path_no_leading_slash_witness :
    parse_query_path (azQuery ("acct".data) ("container".data)
        ["dir".data, "file.txt".data]) =
      Except.ok (joinSlash ["dir".data, "file.txt".data]) ∧
    (joinSlash ["dir".data, "file.txt".data]).head? ≠ some '/' :=
  c4_path_no_leading_slash _ _ _ _ (by decide) (by decide) (by decide) (by decide)
    (by decide)

/-- C5 counterexample: for `az://acct/` the container component comes out
empty, yet `parse_query_container_name` *succeeds* with the empty container
name instead of failing with a parse error. -/
theorem c5_cex : parse_query_container_name ("az://acct/".data) = Except.ok [] :=
  rfl

/-- C5 (amended): container parsing fails with a parse error iff the parsed
URL path contains no `/` at all (as for `az://acct`, whose path is empty);
when the path has a `/` the parse succeeds, even when — as for `az://acct/` —
the resulting container name is empty. -/
theorem c5_container_error_iff (q : Str) (p : UrlParts) (h : urlparse q = Except.ok p) :
    isOkE (parse_query_container_name q) = true ↔ '/' ∈ p.path := by
  unfold parse_query_container_name
  rw [h]
  dsimp only
  constructor
  · intro hok
    by_contra hmem
    rw [pysplit_not_mem hmem] at hok
    simp [isOkE] at hok
  · intro hmem
    obtain ⟨a, b, r2, habr⟩ := pysplit_two_pieces hmem
    rw [habr]
    simp [isOkE]

/-- Witness for C5 (amended): `az://acct` has an empty path, so container
parsing raises. -/
theorem c5_container_error_iff_witness :
    isOkE (parse_query_container_name ("az://acct".data)) = false := by
  have h := c5_container_error_iff ("az://acct".data)
    ⟨"az".data, "acct".data, [], [], [], []⟩ (by rfl)
  simpa using h

/-- C8 counterexample: `az:foo` does not carry the prefix `az://`, yet the
validator accepts it, because `urlparse` still reports scheme `az`. -/
theorem c8_cex :
    ("az://".data).isPrefixOf ("az:foo".data) = false ∧
    (is_valid_query ("az:foo".data)).valid = true :=
  ⟨rfl, rfl⟩

/-- C8 (amended): for every query whose `urlparse` *scheme* is not `az`
(including every string `urlparse` rejects), the validator returns
`valid = false` with a nonempty reason, and it never raises — every failure
is reported through the result value.  A query may lack the literal `az://`
prefix and still validate when its scheme parses as `az` (see the
counterexample). -/
theorem c8_scheme_reject (q : Str) (h : schemeOf q ≠ some ("az".data)) :
    (is_valid_query q).valid = false ∧
    ∃ r, (is_valid_query q).reason = some r ∧ r ≠ "" := by
  unfold schemeOf at h
  cases hu : urlparse q with
  | error e =>
    rw [is_valid_query_err hu]
    refine ⟨rfl, "cannot be parsed as URL (" ++ e ++ ")", rfl, fun hempty => ?_⟩
    have h0 := congrArg String.length hempty
    rw [String.length_append, String.length_append] at h0
    rw [show ("cannot be parsed as URL (" : String).length = 25 from rfl] at h0
    rw [show (")" : String).length = 1 from rfl] at h0
    rw [show ("" : String).length = 0 from rfl] at h0
    omega
  | ok p =>
    rw [hu] at h
    have hs : ¬ p.scheme = "az".data := by simpa [Except.toOption] using h
    rw [is_valid_query_ok hu, if_pos hs]
    exact ⟨rfl, "must start with az (az://...)", rfl, by decide⟩

/-- Witness for C8 (amended) at the scheme-less and wrong-scheme inputs. -/
theorem c8_scheme_reject_witness :
    (is_valid_query ("http://x/y".data)).valid = false ∧
    ∃ r, (is_valid_query ("http://x/y".data)).reason = some r ∧ r ≠ "" :=
  c8_scheme_reject _ (by decide)

/-- C10: the strictly-alphanumeric rejection branch of `is_valid_query` is
unreachable — the guard tests the truthiness of the bound method
`parsed.netloc.isalnum` without calling it — so every query `urlparse`
accepts whose scheme is `az` validates with `valid = true` (and no reason),
regardless of the characters in its account or container components. -/
theorem c10_alnum_guard_unreachable (q : Str) (h : schemeOf q = some ("az".data)) :
    (is_valid_query q).valid = true ∧ (is_valid_query q).reason = none := by
  unfold schemeOf at h
  cases hu : urlparse q with
  | error e =>
    rw [hu] at h
    simp [Except.toOption] at h
  | ok p =>
    rw [hu] at h
    have hs : p.scheme = "az".data := by simpa [Except.toOption] using h
    rw [is_valid_query_ok hu, if_neg (by simp [hs])]
    exact ⟨rfl, rfl⟩

/-- Witness for C10 at an account full of illegal characters. -/
theorem c10_alnum_guard_unreachable_witness :
    (is_valid_query ("az://what*ever**/x".data)).valid = true ∧
    (is_valid_query ("az://what*ever**/x".data)).reason = none :=
  c10_alnum_guard_unreachable _ (by decide)

/-- C6 counterexample: the production classifier's regex ends in
`\/?(.+)?$`, so a suffix need not start with `/`:
`https://acct.blob.core.windows.netevil` is accepted although it is not of
the claimed form `https://<labels>.blob.core.windows.net[/...]`. -/
theorem c6_cex :
    is_valid_blob_endpoint ("https://acct.blob.core.windows.netevil".data) = true ∧
    claimedBlobLang ("https://acct.blob.core.windows.netevil".data) = false :=
  ⟨rfl, rfl⟩

/-- C6 (amended): the production classifier accepts
`https://<labels>.blob.core.windows.net<suffix>` for an *arbitrary*
newline-free suffix — not only suffixes of the form `/...` (see the
counterexample).  For every accepted endpoint whose suffix is empty or begins
with `/`, the extracted account name is the first label of the host. -/
theorem c6_blob_endpoint (H T : Str)
    (hH : hostLabels H = true) (hHc : H.all hostChar = true)
    (hT : T.all cleanChar = true) (hT0 : T = [] ∨ ∃ t, T = '/' :: t) :
    is_valid_blob_endpoint
        ("https://".data ++ (H ++ (".blob.core.windows.net".data ++ T))) = true ∧
    parse_account_name_from_blob_endpoint_url
        ("https://".data ++ (H ++ (".blob.core.windows.net".data ++ T))) =
      Except.ok (H.takeWhile fun x => !(x = '.')) := by
  have hNplain : (H ++ ".blob.core.windows.net".data).all plainChar = true := by
    rw [List.all_append, Bool.and_eq_true]
    exact ⟨all_imp hostChar_plainChar hHc, by decide⟩
  have haccept : is_valid_blob_endpoint
      ("https://".data ++ (H ++ (".blob.core.windows.net".data ++ T))) = true := by
    unfold is_valid_blob_endpoint
    rw [Bool.and_eq_true]
    refine ⟨isPrefixOf_self_append _ _, ?_⟩
    have hdrop : ("https://".data ++ (H ++ (".blob.core.windows.net".data ++ T))).drop 8 =
        H ++ (".blob.core.windows.net".data ++ T) :=
      drop_append_len ("https://".data) _
    rw [hdrop, List.any_eq_true]
    refine ⟨H.length, ?_, ?_⟩
    · rw [List.mem_range, List.length_append]
      omega
    · have e1 : (H ++ (".blob.core.windows.net".data ++ T)).take H.length = H :=
        take_append_len _ _
      have e2 : (H ++ (".blob.core.windows.net".data ++ T)).drop H.length =
          ".blob.core.windows.net".data ++ T :=
        drop_append_len _ _
      have e3 : (".blob.core.windows.net".data ++ T).drop 22 = T :=
        drop_append_len (".blob.core.windows.net".data) T
      rw [e1, e2, Bool.and_eq_true, Bool.and_eq_true, e3]
      refine ⟨⟨hH, isPrefixOf_self_append _ _⟩, ?_⟩
      unfold dollarTail
      exact all_dropLast (all_imp cleanChar_notNL hT)
  refine ⟨haccept, ?_⟩
  rcases hT0 with rfl | ⟨t, rfl⟩
  · have hu : urlparse
        ("https://".data ++ (H ++ (".blob.core.windows.net".data ++ []))) =
        Except.ok ⟨List.map Char.toLower ("https".data),
          H ++ ".blob.core.windows.net".data, [], [], [], []⟩ := by
      have h0 := @urlparse_authority_only ("https".data)
        (H ++ ".blob.core.windows.net".data)
        (by decide) (by decide) (by decide) (by decide) hNplain
      exact h0
    unfold parse_account_name_from_blob_endpoint_url
    rw [if_pos haccept, hu]
    dsimp only
    rw [first_label]
  · have hassoc : "https://".data ++ (H ++ (".blob.core.windows.net".data ++ ('/' :: t))) =
        "https://".data ++ ((H ++ ".blob.core.windows.net".data) ++ ('/' :: t)) := by
      rw [List.append_assoc]
    rw [hassoc] at haccept ⊢
    have htc : t.all cleanChar = true := by
      rw [List.all_cons, Bool.and_eq_true] at hT
      exact hT.2
    obtain ⟨pr, hpr, hsch, hnl⟩ :
        ∃ pr : UrlParts, urlparse
            ("https://".data ++ ((H ++ ".blob.core.windows.net".data) ++ ('/' :: t))) =
          Except.ok pr ∧ pr.scheme = List.map Char.toLower ("https".data) ∧
          pr.netloc = H ++ ".blob.core.windows.net".data :=
      @urlparse_tail ("https".data) (H ++ ".blob.core.windows.net".data) t
        (by decide) (by decide) (by decide) (by decide) hNplain htc
    unfold parse_account_name_from_blob_endpoint_url
    rw [if_pos haccept, hpr]
    dsimp only
    rw [hnl, first_label]

/-- Witness for C6 (amended) at `https://acct.blob.core.windows.net`. -/
theorem c6_blob_endpoint_witness :
    is_valid_blob_endpoint
      ("https://".data ++ ("acct".data ++ (".blob.core.windows.net".data ++ []))) = true ∧
    parse_account_name_from_blob_endpoint_url
        ("https://".data ++ ("acct".data ++ (".blob.core.windows.net".data ++ []))) =
      Except.ok (("acct".data).takeWhile fun x => !(x = '.')) :=
  c6_blob_endpoint ("acct".data) [] (by decide) (by decide) (by decide) (Or.inl rfl)

/-- C7 counterexample: the emulator classifier's regex also ends in
`\/?(.+)?$`, so the account part is optional: `http://localhost:10000`
(asserted valid by the repository's own test) is accepted although it is not
of the claimed form `http://<host>:<port>/<account>`. -/
theorem c7_cex :
    is_valid_mock_endpoint ("http://localhost:10000".data) = true ∧
    claimedMockLang ("http://localhost:10000".data) = false :=
  ⟨rfl, rfl⟩

/-- C7 (amended): the emulator classifier accepts endpoints of the claimed
form `http://<host>:<port>/<account>` for both hosts `localhost` and
`127.0.0.1` (any digit port), and on them the extracted account name is the
final path segment; but the classifier also accepts strings with no account
at all (see the counterexample). -/
theorem c7_mock_endpoint (port acct : Str)
    (hport : port.all Char.isDigit = true) (hportne : port ≠ [])
    (hacct : acct.all plainChar = true) (hacctne : acct ≠ []) :
    (is_valid_mock_endpoint ("http://localhost:".data ++ (port ++ ('/' :: acct))) = true ∧
     parse_account_name_from_mock_endpoint_url
        ("http://localhost:".data ++ (port ++ ('/' :: acct))) = Except.ok acct) ∧
    (is_valid_mock_endpoint ("http://127.0.0.1:".data ++ (port ++ ('/' :: acct))) = true ∧
     parse_account_name_from_mock_endpoint_url
        ("http://127.0.0.1:".data ++ (port ++ ('/' :: acct))) = Except.ok acct) := by
  have hdigits := digits_tail_core hport hportne hacct
  constructor
  · constructor
    · unfold is_valid_mock_endpoint
      rw [Bool.or_eq_true]
      left
      rw [Bool.and_eq_true]
      exact ⟨isPrefixOf_self_append _ _, by rw [drop_localhost]; exact hdigits⟩
    · have h := @mock_account ("localhost:".data ++ port) acct
        (by rw [List.all_append, Bool.and_eq_true]
            exact ⟨by decide, all_imp digit_plainChar hport⟩)
        hacct hacctne
      have heq : "http".data ++ ':' :: '/' :: '/' ::
          (("localhost:".data ++ port) ++ '/' :: acct) =
          "http://localhost:".data ++ (port ++ ('/' :: acct)) := by
        change 'h' :: 't' :: 't' :: 'p' :: ':' :: '/' :: '/' ::
          (("localhost:".data ++ port) ++ '/' :: acct) = _
        rw [List.append_assoc]
        rfl
      rw [heq] at h
      exact h
  · constructor
    · unfold is_valid_mock_endpoint
      rw [Bool.or_eq_true]
      right
      rw [Bool.and_eq_true]
      exact ⟨isPrefixOf_self_append _ _, by rw [drop_loopback]; exact hdigits⟩
    · have h := @mock_account ("127.0.0.1:".data ++ port) acct
        (by rw [List.all_append, Bool.and_eq_true]
            exact ⟨by decide, all_imp digit_plainChar hport⟩)
        hacct hacctne
      have heq : "http".data ++ ':' :: '/' :: '/' ::
          (("127.0.0.1:".data ++ port) ++ '/' :: acct) =
          "http://127.0.0.1:".data ++ (port ++ ('/' :: acct)) := by
        change 'h' :: 't' :: 't' :: 'p' :: ':' :: '/' :: '/' ::
          (("127.0.0.1:".data ++ port) ++ '/' :: acct) = _
        rw [List.append_assoc]
        rfl
      rw [heq] at h
      exact h

/-- Witness for C7 (amended) at `http://localhost:10000/devstoreaccount1` and
`http://127.0.0.1:10000/devstoreaccount1`. -/
theorem c7_mock_endpoint_witness :
    (is_valid_mock_endpoint
        ("http://localhost:".data ++ ("10000".data ++ ('/' :: "devstoreaccount1".data))) =
          true ∧
     parse_account_name_from_mock_endpoint_url
        ("http://localhost:".data ++ ("10000".data ++ ('/' :: "devstoreaccount1".data))) =
          Except.ok ("devstoreaccount1".data)) ∧
    (is_valid_mock_endpoint
        ("http://127.0.0.1:".data ++ ("10000".data ++ ('/' :: "devstoreaccount1".data))) =
          true ∧
     parse_account_name_from_mock_endpoint_url
        ("http://127.0.0.1:".data ++ ("10000".data ++ ('/' :: "devstoreaccount1".data))) =
          Except.ok ("devstoreaccount1".data)) :=
  c7_mock_endpoint ("10000".data) ("devstoreaccount1".data)
    (by decide) (by decide) (by decide) (by decide)

/-! # Retry safety of the state-changing operations -/

theorem filter_idem {α : Type} (q : α → Bool) (l : List α) :
    (l.filter q).filter q = l.filter q := by
  induction l with
  | nil => rfl
  | cons x xs ih =>
    by_cases hx : q x = true
    · simp [List.filter_cons, hx, ih]
    · simp [List.filter_cons, hx, ih]

theorem blobExists_delete (st : AzState) (c p : Str) :
    blobExistsB (deleteBlobOp st c p) c p = false := by
  unfold blobExistsB deleteBlobOp
  dsimp only
  rw [← Bool.not_eq_true, List.any_eq_true]
  rintro ⟨b, hbmem, hbeq⟩
  rw [List.mem_filter] at hbmem
  have h2 := hbmem.2
  simp only [decide_eq_true_eq] at hbeq
  simp [hbeq] at h2

theorem upload_idem (s : AzState) (c p dd : Str) :
    uploadBlobOp (uploadBlobOp s c p dd) c p dd = uploadBlobOp s c p dd := by
  simp [uploadBlobOp, List.filter_cons, filter_idem]

/-- C9: the state-changing operations are safe to repeat — `remove` is
idempotent, removing an absent blob leaves the backend unchanged (the code
guards the deletion with an existence check), and `store_object` (create
container when absent, re-upload with overwrite) is idempotent. -/
theorem c9_retry_safe (st : AzState) (c p : Str) (d : Option Str) :
    removeOp (removeOp st c p) c p = removeOp st c p ∧
    (blobExistsB st c p = false → removeOp st c p = st) ∧
    storeObjectOp (storeObjectOp st c p d) c p d = storeObjectOp st c p d := by
  refine ⟨?_, ?_, ?_⟩
  · by_cases h : blobExistsB st c p = true
    · have hin : removeOp st c p = deleteBlobOp st c p := by
        rw [removeOp, if_pos h]
      rw [hin, removeOp, if_neg (by simp [blobExists_delete])]
    · have hin : removeOp st c p = st := by
        rw [removeOp, if_neg h]
      rw [hin]
      exact hin
  · intro h
    rw [removeOp, if_neg (by simp [h])]
  · unfold storeObjectOp
    cases d with
    | none =>
      dsimp only
      by_cases h : containerExistsB st c = true
      · rw [if_pos h, if_pos h]
      · rw [if_neg h,
          if_pos (show containerExistsB (createContainerOp st c) c = true by
            simp [containerExistsB, createContainerOp])]
    | some dd =>
      dsimp only
      by_cases h : containerExistsB st c = true
      · rw [if_pos h]
        have hex : containerExistsB (uploadBlobOp st c p dd) c = true := by
          simpa [containerExistsB, uploadBlobOp] using h
        rw [if_pos hex]
        exact upload_idem st c p dd
      · rw [if_neg h]
        have hex : containerExistsB (uploadBlobOp (createContainerOp st c) c p dd) c =
            true := by
          simp [containerExistsB, uploadBlobOp, createContainerOp]
        rw [if_pos hex]
        exact upload_idem (createContainerOp st c) c p dd

/-- Witness for C9: removing an absent blob from an empty backend is a
no-op. -/
theorem c9_retry_safe_witness :
    blobExistsB ⟨[], []⟩ ("c".data) ("f.txt".data) = false ∧
    removeOp ⟨[], []⟩ ("c".data) ("f.txt".data) = ⟨[], []⟩ :=
  ⟨by decide, (c9_retry_safe ⟨[], []⟩ ("c".data) ("f.txt".data) none).2.1 (by decide)⟩

end AzurePlugin
